import Mathlib

/-!
Verification of the Shakti risk-aggregation and geospatial-visualization
pipeline (React frontend).  The JavaScript source is shallowly embedded:

* JS numbers occurring in the data are IEEE 754 doubles; every double is a
  rational, so record fields carry `ℚ` values.  Comparisons (`>`) and the
  sign of a difference of doubles coincide with exact rational comparison,
  so no rounding model is needed there.  Where a claim depends on the
  *result* of a double multiplication (the popup percentage), the rounding
  of the exact product to the nearest double (`dblRound`) is applied.
* Absent fields (`undefined`) are embedded as `Option.none`; JS's
  `x > y` with an `undefined` operand is false both ways (`jsGt`), and
  `x || 0` is `Option.getD _ 0` (`scoreD`).
* A JS object used as a string-keyed dictionary is an association list
  with position-preserving update (`setKey`) and first-match lookup
  (`lookupKey`); `Object.values` is `List.map Prod.snd`.  Keys are
  `String(consumer_id)`, so an absent id becomes the key "undefined".
* `parseFloat` is embedded over an inductive of JS values
  (`CoordVal`) producing an extended number (`JNum`: finite rational,
  ±Infinity, or NaN), following ECMAScript's prefix-parsing rules
  (leading whitespace, sign, `Infinity` keyword, digits, fraction,
  exponent, trailing junk ignored).  Decimal strings are parsed exactly
  over `ℚ`; no claim below depends on the parse being rounded to a double.
-/

namespace Shakti

/-! ## Data model -/

/-- A raw JS value appearing in a latitude/longitude field: a (finite)
JSON number, a string, or `undefined`. -/
inductive CoordVal where
  | num (q : ℚ)
  | str (s : String)
  | undef
deriving DecidableEq, Repr

/-- Result of `parseFloat`: a finite double (as a rational), `Infinity`,
`-Infinity`, or `NaN`. -/
inductive JNum where
  | fin (q : ℚ)
  | inf
  | ninf
  | nan
deriving DecidableEq, Repr

/-- JS `isNaN` on a `parseFloat` result. -/
def JNum.isNaN : JNum → Bool
  | .nan => true
  | _ => false

/-- One element of the backend result set, as consumed by the frontend. -/
structure Item where
  consumer_id : Option String
  transformer_id : Option String
  latitude : CoordVal
  longitude : CoordVal
  aggregate_risk_score : Option ℚ
  risk_class : Option String
deriving DecidableEq, Repr

/-- The `data` object destructured by the components: `results` holds all
items, `anomalies` the backend-declared anomalous subset.  (The summary
block is rendered verbatim and not touched by any operation verified
here.) -/
structure AnalysisData where
  results : Option (List Item)
  anomalies : Option (List Item)
deriving DecidableEq, Repr

/-- JS string coercion of a possibly-absent string: `String(undefined)`
is `"undefined"`. -/
def jsStr (o : Option String) : String := o.getD "undefined"

/-- The object key used for an item: `String(item.consumer_id)`. -/
def itemKey (r : Item) : String := jsStr r.consumer_id

/-- `x || 0` on a possibly-absent score. -/
def scoreD (r : Item) : ℚ := (r.aggregate_risk_score).getD 0

/-- JS `a > b` on possibly-absent numbers: false whenever either side is
`undefined` (the comparison goes through NaN). -/
def jsGt (a b : Option ℚ) : Bool :=
  match a, b with
  | some x, some y => decide (y < x)
  | _, _ => false

/-! ## `parseFloat` -/

/-- Whitespace skipped by `parseFloat`. -/
def isWs (c : Char) : Bool := c = ' ' || c = '\t' || c = '\n' || c = '\r'

/-- Numeric value of a digit run. -/
def digitsVal (ds : List Char) : ℕ :=
  ds.foldl (fun n c => 10 * n + (c.toNat - 48)) 0

/-- Exponent part after `e`/`E`: optional sign then digits; an `e` not
followed by digits contributes exponent 0 (it is trailing junk). -/
def parseExp (t : List Char) : ℤ :=
  let p := match t with
    | '-' :: u => ((-1 : ℤ), u)
    | '+' :: u => ((1 : ℤ), u)
    | _ => ((1 : ℤ), t)
  let ds := p.2.takeWhile Char.isDigit
  if ds = [] then 0 else p.1 * (digitsVal ds : ℤ)

/-- ECMAScript `parseFloat` on a string: longest numeric prefix after
leading whitespace; `NaN` if none. -/
def parseFloatStr (s : String) : JNum :=
  let cs := s.data.dropWhile isWs
  let p := match cs with
    | '-' :: t => ((-1 : ℤ), t)
    | '+' :: t => ((1 : ℤ), t)
    | _ => ((1 : ℤ), cs)
  let sgn := p.1
  let cs := p.2
  if cs.take 8 = "Infinity".data then (if sgn = 1 then .inf else .ninf)
  else
    let ds1 := cs.takeWhile Char.isDigit
    let cs1 := cs.dropWhile Char.isDigit
    let q := match cs1 with
      | '.' :: t => (t.takeWhile Char.isDigit, t.dropWhile Char.isDigit)
      | _ => (([] : List Char), cs1)
    let ds2 := q.1
    let rest := q.2
    if ds1 = [] ∧ ds2 = [] then .nan
    else
      let mant : ℚ := (digitsVal ds1 : ℚ) + (digitsVal ds2 : ℚ) / (10 : ℚ) ^ ds2.length
      let ex : ℤ := match rest with
        | 'e' :: t => parseExp t
        | 'E' :: t => parseExp t
        | _ => 0
      .fin ((sgn : ℚ) * mant * (10 : ℚ) ^ ex)

/-- `parseFloat` on a raw field value; `parseFloat(undefined)` parses the
string "undefined", which is `NaN`. -/
def parseFloatJs : CoordVal → JNum
  | .num q => .fin q
  | .str s => parseFloatStr s
  | .undef => .nan

/-- `String.prototype.toLowerCase()` on one character; the risk-class
tags are ASCII, where Unicode lowering is exactly this shift. -/
def lowerChar (c : Char) : Char :=
  if 'A' ≤ c ∧ c ≤ 'Z' then Char.ofNat (c.toNat + 32) else c

/-- `String.prototype.toLowerCase()` (ASCII fragment). -/
def lowerStr (s : String) : String := ⟨s.data.map lowerChar⟩

/-! ## Consumer ranking engine — `getUniqueConsumers` (MapComponent) -/

/-- The `uniqueConsumers` dictionary: insertion-ordered association list. -/
abbrev RMap := List (String × Item)

/-- First-match lookup, `uniqueConsumers[k]`. -/
def lookupKey : RMap → String → Option Item
  | [], _ => none
  | (k', v) :: t, k => if k' = k then some v else lookupKey t k

/-- `uniqueConsumers[k] = v`: overwrites in place if the key exists,
appends otherwise (JS property insertion order). -/
def setKey : RMap → String → Item → RMap
  | [], k, v => [(k, v)]
  | (k', v') :: t, k, v =>
      if k' = k then (k', v) :: t else (k', v') :: setKey t k v

/-- The body of the `forEach` in `getUniqueConsumers`: insert if the key
is absent, else replace only when the new score is strictly greater
(under JS `>`, hence never when either score is absent). -/
def step (m : RMap) (item : Item) : RMap :=
  match lookupKey m (itemKey item) with
  | none => setKey m (itemKey item) item
  | some stored =>
      if jsGt item.aggregate_risk_score stored.aggregate_risk_score then
        setKey m (itemKey item) item
      else m

/-- The dictionary built by the `forEach` over `data.results`. -/
def buildMap (l : List Item) : RMap := l.foldl step []

/-- `getUniqueConsumers(data)`: `[]` when `data` or `data.results` is
absent, else `Object.values` of the deduplicating dictionary. -/
def getUniqueConsumers (data : Option AnalysisData) : List Item :=
  match data with
  | none => []
  | some d =>
      match d.results with
      | none => []
      | some results => (buildMap results).map Prod.snd

/-- The record kept by the reducer for a group whose first element is `x`
and later elements are `l`: fold of the strict-greater replacement. -/
def pickBestFrom (x : Item) (l : List Item) : Item :=
  l.foldl
    (fun a b =>
      if jsGt b.aggregate_risk_score a.aggregate_risk_score then b else a) x

/-- The sub-sequence of `l` landing on dictionary key `k`. -/
def groupFor (l : List Item) (k : String) : List Item :=
  l.filter (fun r => itemKey r = k)

/-! ## IEEE 754 double rounding (for the popup percentage only) -/

/-- Round a rational to the nearest integer, ties to even. -/
def roundHalfEven (x : ℚ) : ℤ :=
  let f := ⌊x⌋
  let r := x - f
  if r < 1 / 2 then f
  else if 1 / 2 < r then f + 1
  else if f % 2 = 0 then f else f + 1

/-- Round a rational to the nearest IEEE 754 binary64 value (normal
range; overflow and subnormals do not arise for the risk scores in
`[0,1]` and their products with 100). -/
def dblRound (q : ℚ) : ℚ :=
  if q = 0 then 0
  else
    let a := |q|
    let e : ℤ := Int.log 2 a - 52
    let m : ℤ := roundHalfEven (a / (2 : ℚ) ^ e)
    (if q < 0 then -1 else 1) * (m : ℚ) * (2 : ℚ) ^ e

/-- `Number.prototype.toFixed(0)`: the integer `n` minimizing `|n - x|`,
ties resolved to the larger `n` (ECMA-262), i.e. `⌊x + 1/2⌋`. -/
def jsToFixed0 (q : ℚ) : ℤ := ⌊q + 1 / 2⌋

/-! ## Marker lifecycle — `updateMarkers` (MapComponent) -/

/-- One rendered map pin: position as parsed (possibly infinite — only
`NaN` coordinates are rejected by the code), fill color, tooltip title,
and the popup content (`consumerId` and the percentage from
`((aggregate_risk_score || 0) * 100).toFixed(0)`, the multiplication
being double-precision). -/
structure MarkerEntry where
  lat : JNum
  lng : JNum
  color : String
  title : String
  popupId : String
  popupPercent : ℤ
deriving DecidableEq, Repr

/-- The body of the `forEach` in `updateMarkers` for one ranked record:
`none` when the record is skipped (NaN coordinate, or risk class not one
of theft/critical/mild after lowercasing), else the constructed marker. -/
def markerOf (item : Item) : Option MarkerEntry :=
  let lat := parseFloatJs item.latitude
  let lng := parseFloatJs item.longitude
  if lat.isNaN || lng.isNaN then none
  else
    let risk := lowerStr ((item.risk_class).getD "")
    if risk ≠ "theft" ∧ risk ≠ "critical" ∧ risk ≠ "mild" then none
    else
      some
        { lat := lat
        , lng := lng
        , color := if risk = "mild" then "#eab308" else "#ef4444"
        , title := "Consumer: " ++ jsStr item.consumer_id ++ " (" ++ jsStr item.risk_class ++ ")"
        , popupId := jsStr item.consumer_id
        , popupPercent := jsToFixed0 (dblRound (scoreD item * 100)) }

/-- The marker list produced by one pass of `updateMarkers` over a ranked
record list (the pass first clears `markersRef`, then pushes one marker
per surviving record, in order). -/
def renderMarkers (items : List Item) : List MarkerEntry :=
  items.filterMap markerOf

/-- Full `updateMarkers` data path: ranked view, then per-record marker
construction. -/
def updateMarkers (data : Option AnalysisData) : List MarkerEntry :=
  renderMarkers (getUniqueConsumers data)

/-! ## Table renderer — `ResultsDisplay` -/

/-- `results ? results.filter(item => item.risk_class === 'normal') : []`. -/
def normalItems (results : Option (List Item)) : List Item :=
  (results.getD []).filter (fun r => r.risk_class = some "normal")

/-- Stable insertion into a descending run: the element goes before the
first entry whose `(score || 0)` is `≤` its own.  JS `Array.prototype.sort`
is stable and the comparator `(b.score||0) - (a.score||0)` induces the
total preorder "descending by `scoreD`"; a stable sort against a total
preorder has a unique result, which this insertion sort computes. -/
def insertDesc (x : Item) : List Item → List Item
  | [] => [x]
  | y :: t => if scoreD y ≤ scoreD x then x :: y :: t else y :: insertDesc x t

/-- `[...items].sort((a, b) => (b.aggregate_risk_score || 0) - (a.aggregate_risk_score || 0))`. -/
def sortDescendingByRisk (l : List Item) : List Item :=
  l.foldr insertDesc []

/-- `sortedNormalItems` in `ResultsDisplay`. -/
def sortedNormalItems (results : Option (List Item)) : List Item :=
  sortDescendingByRisk (normalItems results)

/-- The render condition of the "Normal Entries" section:
`showAll && sortedNormalItems.length > 0`. -/
def showNormalSection (showAll : Bool) (results : Option (List Item)) : Bool :=
  showAll && decide (0 < (sortedNormalItems results).length)

/-! ## Map readiness / initialization — `initializeMap` (MapComponent) -/

/-- The mutable refs and error state of `MapComponent` that
`initializeMap` touches: `googleMapRef.current` (a surface handle,
modelled as a numeric identity so that re-construction is observable),
`markersRef.current`, the `error` state, and a counter supplying fresh
surface identities. -/
structure MapState where
  googleMap : Option ℕ
  markers : List MarkerEntry
  error : Option String
  nextSurface : ℕ
deriving DecidableEq, Repr

/-- `initializeMap`: no-op when the host element ref is absent or a map
surface already exists; otherwise constructs the surface (which may
throw — `constructOk = false` sets the error state and leaves the handle
absent) and runs `updateMarkers`. -/
def initializeMap (hasMapRef : Bool) (constructOk : Bool)
    (data : Option AnalysisData) (s : MapState) : MapState :=
  if !hasMapRef then s
  else if (s.googleMap).isSome then s
  else if constructOk then
    { googleMap := some s.nextSurface
    , markers := updateMarkers data
    , error := s.error
    , nextSurface := s.nextSurface + 1 }
  else
    { s with error := some "Google Maps API loaded but initialization failed." }

/-! ## Auxiliary definitions used by the statements -/

/-- The key column of the dictionary. -/
def keysOf (m : RMap) : List String := m.map Prod.fst

/-- The dictionary entry the reducer ends up with for key `k`. -/
def entryFor (records : List Item) (k : String) : Option Item :=
  lookupKey (buildMap records) k

/-! ## Concrete fixtures used in witnesses and counterexamples -/

/-- Two records sharing `consumer_id` "X" with scores 0.3 and 0.7. -/
def itemX03 : Item := ⟨some "X", none, .num 28, .num 77, some (3/10), some "theft"⟩

def itemX07 : Item := ⟨some "X", none, .num 28, .num 77, some (7/10), some "critical"⟩

/-- The three records of the spec's sort law. -/
def itemA : Item := ⟨some "A", none, .num 28, .num 77, some (1/10), some "normal"⟩

def itemB : Item := ⟨some "B", none, .num 28, .num 77, some (9/10), some "normal"⟩

def itemC : Item := ⟨some "C", none, .num 28, .num 77, some (5/10), some "normal"⟩

/-- A record with no `consumer_id` field. -/
def itemNoId : Item := ⟨none, none, .num 28, .num 77, none, some "theft"⟩

def itemAnom : Item := ⟨some "A1", some "T1", .num 28, .num 77, some (4/5), some "critical"⟩

/-- A response with `results` absent but `anomalies` non-empty. -/
def dataNoResults : AnalysisData := ⟨none, some [itemAnom]⟩

/-- Latitude is the unparseable string "N/A". -/
def itemNA : Item := ⟨some "N1", none, .str "N/A", .num 77, some (1/2), some "theft"⟩

/-- Latitude is the string "Infinity": `parseFloat` yields `Infinity`,
which is not `NaN`. -/
def itemInf : Item := ⟨some "I1", none, .str "Infinity", .num 77, some (1/2), some "theft"⟩

/-- A record whose score is the binary64 value produced by parsing the
JSON literal `0.145`. -/
def item145 : Item := ⟨some "P1", none, .num 28, .num 77, some (dblRound (145/1000)), some "theft"⟩

def itemMild : Item := ⟨some "M1", none, .num 28, .num 77, some (1/4), some "mild"⟩

def itemTheft : Item := ⟨some "T9", none, .num 28, .num 77, some (3/4), some "theft"⟩

def itemCrit : Item := ⟨some "K1", none, .num 28, .num 77, some (3/4), some "critical"⟩

def itemNormal : Item := ⟨some "Z1", none, .num 28, .num 77, some (1/5), some "normal"⟩

def itemWeird : Item := ⟨some "W1", none, .num 28, .num 77, some (1/5), some "sus"⟩

/-- Same `consumer_id`, first with no score, second with score 0.5. -/
def itemNoScore : Item := ⟨some "S1", none, .num 28, .num 77, none, some "theft"⟩

def itemS05 : Item := ⟨some "S1", none, .num 28, .num 77, some (1/2), some "theft"⟩

/-- A component state in which the map surface has been constructed. -/
def mapStateReady : MapState := ⟨some 0, [], none, 1⟩

/-- The ranking contract of `getUniqueConsumers` on a given input:
re-computation yields the same value, output keys are duplicate-free, a
consumer key occurs in the output iff it occurs in the input, and each
kept record splits its input id-group as `pre ++ kept :: post` with all
of `pre` scoring strictly less and all of `post` scoring at most the
kept record (the first-encountered maximum wins ties). -/
def RankSpec (records : List Item) (anoms : Option (List Item)) : Prop :=
  (getUniqueConsumers (some ⟨some records, anoms⟩)
      = getUniqueConsumers (some ⟨some records, anoms⟩))
  ∧ ((getUniqueConsumers (some ⟨some records, anoms⟩)).map itemKey).Nodup
  ∧ (∀ k : String,
      (∃ r ∈ getUniqueConsumers (some ⟨some records, anoms⟩), itemKey r = k)
        ↔ ∃ r ∈ records, itemKey r = k)
  ∧ (∀ r ∈ getUniqueConsumers (some ⟨some records, anoms⟩),
      ∃ pre post,
        groupFor records (itemKey r) = pre ++ r :: post
        ∧ (∀ a ∈ pre, scoreD a < scoreD r)
        ∧ (∀ a ∈ post, scoreD a ≤ scoreD r))

/-! ## Dictionary lemmas -/

theorem lookupKey_setKey_self : ∀ (m : RMap) (k : String) (v : Item),
    lookupKey (setKey m k v) k = some v
  | [], k, v => by simp [setKey, lookupKey]
  | (k', v') :: t, k, v => by
      by_cases h : k' = k
      · simp [setKey, h, lookupKey]
      · simp [setKey, h, lookupKey, lookupKey_setKey_self t k v]

theorem lookupKey_setKey_ne : ∀ (m : RMap) (k k' : String) (v : Item), k' ≠ k →
    lookupKey (setKey m k v) k' = lookupKey m k'
  | [], k, k', v, h => by simp [setKey, lookupKey, Ne.symm h]
  | (k₀, v₀) :: t, k, k', v, h => by
      by_cases h₀ : k₀ = k
      · subst h₀
        simp [setKey, lookupKey, Ne.symm h]
      · simp [setKey, h₀, lookupKey, lookupKey_setKey_ne t k k' v h]

theorem lookupKey_step_ne (m : RMap) (a : Item) (k : String) (h : itemKey a ≠ k) :
    lookupKey (step m a) k = lookupKey m k := by
  cases hl : lookupKey m (itemKey a) with
  | none =>
      simp only [step, hl]
      exact lookupKey_setKey_ne m (itemKey a) k a (Ne.symm h)
  | some s =>
      simp only [step, hl]
      split
      · exact lookupKey_setKey_ne m (itemKey a) k a (Ne.symm h)
      · rfl

theorem groupFor_cons (a : Item) (t : List Item) (k : String) :
    groupFor (a :: t) k =
      if itemKey a = k then a :: groupFor t k else groupFor t k := by
  simp only [groupFor, List.filter_cons]
  split <;> rename_i hs
  · rw [if_pos (of_decide_eq_true hs)]
  · rw [if_neg (of_decide_eq_false (Bool.not_eq_true _ ▸ hs))]

theorem pickBestFrom_cons (x a : Item) (l : List Item) :
    pickBestFrom x (a :: l) =
      pickBestFrom
        (if jsGt a.aggregate_risk_score x.aggregate_risk_score then a else x) l := rfl

theorem lookupKey_foldl_some : ∀ (l : List Item) (m : RMap) (k : String) (v : Item),
    lookupKey m k = some v →
    lookupKey (l.foldl step m) k = some (pickBestFrom v (groupFor l k))
  | [], m, k, v, h => by simpa [groupFor, pickBestFrom]
  | a :: t, m, k, v, h => by
      rw [List.foldl_cons]
      by_cases hk : itemKey a = k
      · subst hk
        rw [groupFor_cons, if_pos rfl, pickBestFrom_cons]
        have hstep : lookupKey (step m a) (itemKey a) =
            some (if jsGt a.aggregate_risk_score v.aggregate_risk_score then a else v) := by
          simp only [step, h]
          split
          · exact lookupKey_setKey_self m (itemKey a) a
          · exact h
        exact lookupKey_foldl_some t _ _ _ hstep
      · rw [groupFor_cons, if_neg hk]
        exact lookupKey_foldl_some t _ _ _ ((lookupKey_step_ne m a k hk).trans h)

theorem lookupKey_foldl_none : ∀ (l : List Item) (m : RMap) (k : String),
    lookupKey m k = none →
    lookupKey (l.foldl step m) k =
      (match groupFor l k with
       | [] => none
       | x :: t => some (pickBestFrom x t))
  | [], m, k, h => by simpa [groupFor]
  | a :: t, m, k, h => by
      rw [List.foldl_cons]
      by_cases hk : itemKey a = k
      · subst hk
        rw [groupFor_cons, if_pos rfl]
        have hstep : lookupKey (step m a) (itemKey a) = some a := by
          simp only [step, h]
          exact lookupKey_setKey_self m (itemKey a) a
        exact lookupKey_foldl_some t _ _ _ hstep
      · rw [groupFor_cons, if_neg hk]
        exact lookupKey_foldl_none t _ _ ((lookupKey_step_ne m a k hk).trans h)

theorem entryFor_eq (l : List Item) (k : String) :
    entryFor l k =
      (match groupFor l k with
       | [] => none
       | x :: t => some (pickBestFrom x t)) :=
  lookupKey_foldl_none l [] k rfl

theorem lookupKey_eq_none_iff : ∀ (m : RMap) (k : String),
    lookupKey m k = none ↔ k ∉ keysOf m
  | [], k => by simp [lookupKey, keysOf]
  | (k', v') :: t, k => by
      by_cases h : k' = k
      · subst h
        simp [lookupKey, keysOf]
      · simp [lookupKey, h, keysOf, Ne.symm h, lookupKey_eq_none_iff t k]

theorem keysOf_setKey : ∀ (m : RMap) (k : String) (v : Item),
    keysOf (setKey m k v) =
      if k ∈ keysOf m then keysOf m else keysOf m ++ [k]
  | [], k, v => by simp [setKey, keysOf]
  | (k', v') :: t, k, v => by
      by_cases h : k' = k
      · subst h
        simp [setKey, keysOf]
      · have hm : k ∈ keysOf ((k', v') :: t) ↔ k ∈ keysOf t := by
          simp [keysOf, Ne.symm h]
        have hrec := keysOf_setKey t k v
        by_cases hk : k ∈ keysOf t
        · rw [if_pos (hm.2 hk)]
          rw [if_pos hk] at hrec
          simp only [setKey, if_neg h, keysOf, List.map_cons] at *
          rw [hrec]
        · rw [if_neg (fun hc => hk (hm.1 hc))]
          rw [if_neg hk] at hrec
          simp only [setKey, if_neg h, keysOf, List.map_cons, List.cons_append] at *
          rw [hrec]

theorem nodup_keysOf_step (m : RMap) (a : Item) (h : (keysOf m).Nodup) :
    (keysOf (step m a)).Nodup := by
  cases hl : lookupKey m (itemKey a) with
  | none =>
      have hk : itemKey a ∉ keysOf m := (lookupKey_eq_none_iff m _).1 hl
      simp only [step, hl]
      rw [keysOf_setKey, if_neg hk]
      simp [List.nodup_append, h, hk]
  | some s =>
      have hk : itemKey a ∈ keysOf m := by
        by_contra hc
        rw [(lookupKey_eq_none_iff m _).2 hc] at hl
        exact Option.noConfusion hl
      simp only [step, hl]
      split
      · rw [keysOf_setKey, if_pos hk]
        exact h
      · exact h

theorem nodup_keysOf_foldl (l : List Item) : ∀ (m : RMap),
    (keysOf m).Nodup → (keysOf (l.foldl step m)).Nodup := by
  induction l with
  | nil => exact fun m h => h
  | cons a t ih => exact fun m h => ih (step m a) (nodup_keysOf_step m a h)

theorem nodup_keysOf_buildMap (l : List Item) : (keysOf (buildMap l)).Nodup :=
  nodup_keysOf_foldl l [] (by simp [keysOf])

theorem mem_setKey (m : RMap) (k : String) (v : Item) (p : String × Item) :
    p ∈ setKey m k v → p ∈ m ∨ p = (k, v) := by
  induction m with
  | nil =>
      intro h
      right
      simpa [setKey] using h
  | cons q t ih =>
      obtain ⟨k', v'⟩ := q
      intro h
      by_cases hk : k' = k
      · subst hk
        simp only [setKey, if_true, eq_self_iff_true, List.mem_cons] at h
        rcases h with h1 | h2
        · right
          exact h1
        · left
          exact List.mem_cons_of_mem _ h2
      · simp only [setKey, hk, if_false, List.mem_cons] at h
        rcases h with h1 | h2
        · left
          exact h1 ▸ List.mem_cons_self _ _
        · rcases ih h2 with h' | h'
          · exact Or.inl (List.mem_cons_of_mem _ h')
          · exact Or.inr h'

theorem consistent_step (m : RMap) (a : Item)
    (h : ∀ p ∈ m, itemKey p.2 = p.1) :
    ∀ p ∈ step m a, itemKey p.2 = p.1 := by
  intro p hp
  cases hl : lookupKey m (itemKey a) with
  | none =>
      simp only [step, hl] at hp
      rcases mem_setKey m _ a p hp with h' | h'
      · exact h p h'
      · rw [h']
  | some s =>
      simp only [step, hl] at hp
      split at hp
      · rcases mem_setKey m _ a p hp with h' | h'
        · exact h p h'
        · rw [h']
      · exact h p hp

theorem consistent_buildMap (l : List Item) :
    ∀ p ∈ buildMap l, itemKey p.2 = p.1 := by
  have main : ∀ (l' : List Item) (m : RMap),
      (∀ p ∈ m, itemKey p.2 = p.1) → ∀ p ∈ l'.foldl step m, itemKey p.2 = p.1 := by
    intro l'
    induction l' with
    | nil => intro m h; exact h
    | cons a t ih => intro m h; exact ih (step m a) (consistent_step m a h)
  exact main l [] (by simp)

theorem lookupKey_eq_some_of_mem : ∀ (m : RMap) (k : String) (v : Item),
    (keysOf m).Nodup → (k, v) ∈ m → lookupKey m k = some v
  | [], k, v, _, hm => by simp at hm
  | (k', v') :: t, k, v, hn, hm => by
      rcases List.mem_cons.1 hm with h | h
      · cases h
        simp [lookupKey]
      · by_cases hk : k' = k
        · subst hk
          exfalso
          have : k' ∈ keysOf t := List.mem_map_of_mem Prod.fst h
          exact (List.nodup_cons.1 hn).1 this
        · simp only [lookupKey, if_neg hk]
          exact lookupKey_eq_some_of_mem t k v (List.nodup_cons.1 hn).2 h

theorem mem_of_lookupKey_eq_some : ∀ (m : RMap) (k : String) (v : Item),
    lookupKey m k = some v → (k, v) ∈ m
  | [], k, v, h => by simp [lookupKey] at h
  | (k', v') :: t, k, v, h => by
      by_cases hk : k' = k
      · subst hk
        simp only [lookupKey, if_pos rfl] at h
        cases h
        exact List.mem_cons_self _ _
      · simp only [lookupKey, if_neg hk] at h
        exact List.mem_cons_of_mem _ (mem_of_lookupKey_eq_some t k v h)

/-! ## Lemmas about the strict-greater reducer -/

theorem jsGt_none_right (a : Option ℚ) : jsGt a none = false := by
  cases a <;> rfl

theorem jsGt_none_left (b : Option ℚ) : jsGt none b = false := by
  cases b <;> rfl

theorem jsGt_eq_scoreD (a b : Item) (ha : (a.aggregate_risk_score).isSome)
    (hb : (b.aggregate_risk_score).isSome) :
    jsGt a.aggregate_risk_score b.aggregate_risk_score
      = decide (scoreD b < scoreD a) := by
  rcases Option.isSome_iff_exists.1 ha with ⟨p, hp⟩
  rcases Option.isSome_iff_exists.1 hb with ⟨q, hq⟩
  simp [jsGt, scoreD, hp, hq]

theorem pickBestFrom_mem : ∀ (l : List Item) (x : Item), pickBestFrom x l ∈ x :: l
  | [], x => by simp [pickBestFrom]
  | a :: t, x => by
      rw [pickBestFrom_cons]
      by_cases hj : jsGt a.aggregate_risk_score x.aggregate_risk_score
      · rw [if_pos hj]
        have hm := pickBestFrom_mem t a
        rcases List.mem_cons.1 hm with h1 | h2
        · rw [h1]
          simp
        · simp [List.mem_cons, h2]
      · rw [if_neg hj]
        have hm := pickBestFrom_mem t x
        rcases List.mem_cons.1 hm with h1 | h2
        · rw [h1]
          simp
        · simp [List.mem_cons, h2]

theorem pickBestFrom_none : ∀ (l : List Item) (x : Item),
    x.aggregate_risk_score = none → pickBestFrom x l = x
  | [], x, _ => rfl
  | a :: t, x, h => by
      rw [pickBestFrom_cons, if_neg (by simp [h, jsGt_none_right])]
      exact pickBestFrom_none t x h

theorem pickBestFrom_filter_isSome : ∀ (l : List Item) (x : Item),
    pickBestFrom x l
      = pickBestFrom x (l.filter (fun r => (r.aggregate_risk_score).isSome))
  | [], x => rfl
  | a :: t, x => by
      cases ha : a.aggregate_risk_score with
      | none =>
          rw [pickBestFrom_cons, if_neg (by simp [ha, jsGt_none_left])]
          rw [List.filter_cons_of_neg (by simp [ha])]
          exact pickBestFrom_filter_isSome t x
      | some q =>
          rw [List.filter_cons_of_pos (by simp [ha]), pickBestFrom_cons,
            pickBestFrom_cons]
          exact pickBestFrom_filter_isSome t _

theorem pickBest_split : ∀ (t : List Item) (x : Item),
    (∀ r ∈ x :: t, (r.aggregate_risk_score).isSome) →
    ∃ pre post, x :: t = pre ++ pickBestFrom x t :: post ∧
      (∀ a ∈ pre, scoreD a < scoreD (pickBestFrom x t)) ∧
      (∀ a ∈ post, scoreD a ≤ scoreD (pickBestFrom x t))
  | [], x, _ => ⟨[], [], rfl, by simp, by simp⟩
  | b :: u, x, hs => by
      have hx : (x.aggregate_risk_score).isSome := hs x (by simp)
      have hb : (b.aggregate_risk_score).isSome := hs b (by simp)
      rw [pickBestFrom_cons, jsGt_eq_scoreD b x hb hx]
      by_cases hcmp : scoreD x < scoreD b
      · rw [if_pos (by simpa using hcmp)]
        obtain ⟨pre, post, heq, hpre, hpost⟩ :=
          pickBest_split u b (fun r hr => hs r (by
            rcases List.mem_cons.1 hr with h1 | h2
            · simp [h1]
            · simp [List.mem_cons, h2]))
        refine ⟨x :: pre, post, ?_, ?_, hpost⟩
        · rw [List.cons_append, ← heq]
        · intro a ha
          rcases List.mem_cons.1 ha with rfl | ha'
          · rcases pre with _ | ⟨p0, pre'⟩
            · have hbp : b = pickBestFrom b u := by
                have := heq
                rw [List.nil_append] at this
                exact (List.cons.injEq .. ▸ this).1
              rw [← hbp]
              exact hcmp
            · have hbp : b = p0 := by
                rw [List.cons_append] at heq
                exact (List.cons.injEq .. ▸ heq).1
              have hlt := hpre p0 (List.mem_cons_self _ _)
              rw [← hbp] at hlt
              exact lt_trans hcmp hlt
          · exact hpre a ha'
      · rw [if_neg (by simpa using hcmp)]
        obtain ⟨pre, post, heq, hpre, hpost⟩ :=
          pickBest_split u x (fun r hr => hs r (by
            rcases List.mem_cons.1 hr with h1 | h2
            · simp [h1]
            · simp [List.mem_cons, h2]))
        rcases pre with _ | ⟨p0, pre'⟩
        · rw [List.nil_append] at heq
          have hxp : x = pickBestFrom x u := (List.cons.injEq .. ▸ heq).1
          have hup : u = post := (List.cons.injEq .. ▸ heq).2
          refine ⟨[], b :: post, ?_, by simp, ?_⟩
          · rw [List.nil_append, ← hxp, ← hup]
          · intro a ha
            rcases List.mem_cons.1 ha with rfl | ha'
            · rw [← hxp]
              exact not_lt.1 hcmp
            · exact hpost a ha'
        · rw [List.cons_append] at heq
          have hxp : x = p0 := (List.cons.injEq .. ▸ heq).1
          have hup : u = pre' ++ pickBestFrom x u :: post :=
            (List.cons.injEq .. ▸ heq).2
          refine ⟨x :: b :: pre', post, ?_, ?_, hpost⟩
          · conv_lhs => rw [hup]
            simp
          · intro a ha
            have hx0 : scoreD x < scoreD (pickBestFrom x u) := by
              have hlt := hpre p0 (List.mem_cons_self _ _)
              rw [← hxp] at hlt
              exact hlt
            rcases List.mem_cons.1 ha with rfl | ha'
            · exact hx0
            · rcases List.mem_cons.1 ha' with rfl | ha''
              · exact lt_of_le_of_lt (not_lt.1 hcmp) hx0
              · exact hpre a (List.mem_cons_of_mem _ ha'')

/-! ## Glue lemmas relating the dictionary to `getUniqueConsumers` -/

theorem entryFor_some_mem (l : List Item) (k : String) (v : Item)
    (h : entryFor l k = some v) : v ∈ l ∧ itemKey v = k := by
  rw [entryFor_eq] at h
  cases hg : groupFor l k with
  | nil =>
      rw [hg] at h
      exact absurd h (by simp)
  | cons x t =>
      rw [hg] at h
      have hv : v = pickBestFrom x t := by
        cases h
        rfl
      have hmem : v ∈ groupFor l k := by
        rw [hg, hv]
        exact pickBestFrom_mem t x
      have := List.mem_filter.1 hmem
      exact ⟨this.1, by simpa using this.2⟩

theorem out_mem_entry (l : List Item) (r : Item)
    (h : r ∈ (buildMap l).map Prod.snd) : entryFor l (itemKey r) = some r := by
  rcases List.mem_map.1 h with ⟨p, hp, hsnd⟩
  have hkey := consistent_buildMap l p hp
  have hlk : lookupKey (buildMap l) p.1 = some p.2 :=
    lookupKey_eq_some_of_mem _ _ _ (nodup_keysOf_buildMap l)
      (by rw [Prod.mk.eta]; exact hp)
  rw [← hsnd, hkey]
  exact hlk

theorem entry_some_of_exists (l : List Item) (k : String)
    (h : ∃ r ∈ l, itemKey r = k) :
    ∃ v, entryFor l k = some v ∧ v ∈ (buildMap l).map Prod.snd := by
  rcases h with ⟨r, hr, hk⟩
  have hmem : r ∈ groupFor l k := List.mem_filter.2 ⟨hr, by simpa using hk⟩
  cases hg : groupFor l k with
  | nil => rw [hg] at hmem; exact absurd hmem (by simp)
  | cons x t =>
      have he : entryFor l k = some (pickBestFrom x t) := by
        rw [entryFor_eq, hg]
      refine ⟨pickBestFrom x t, he, ?_⟩
      exact List.mem_map_of_mem Prod.snd (mem_of_lookupKey_eq_some _ _ _ he)

theorem map_snd_key_eq : ∀ (m : RMap), (∀ p ∈ m, itemKey p.2 = p.1) →
    (m.map Prod.snd).map itemKey = keysOf m
  | [], _ => rfl
  | p :: t, h => by
      simp only [List.map_cons, keysOf] at *
      rw [h p (List.mem_cons_self _ _)]
      rw [map_snd_key_eq t (fun q hq => h q (List.mem_cons_of_mem _ hq))]
      rfl

theorem length_filter_le_one {α β : Type} [DecidableEq β] (f : α → β) (c : β) :
    ∀ (l : List α), (l.map f).Nodup →
      (l.filter (fun x => f x = c)).length ≤ 1
  | [], _ => by simp
  | a :: t, h => by
      simp only [List.map_cons, List.nodup_cons] at h
      by_cases hc : f a = c
      · rw [List.filter_cons_of_pos (by simpa using hc)]
        have ht : t.filter (fun x => f x = c) = [] := by
          rw [List.filter_eq_nil_iff]
          intro x hx
          simp only [decide_eq_true_eq]
          intro hfx
          have hfa : f a = f x := hc.trans hfx.symm
          exact h.1 (hfa ▸ List.mem_map_of_mem f hx)
        rw [ht]
        simp
      · rw [List.filter_cons_of_neg (by simpa using hc)]
        exact length_filter_le_one f c t h.2

/-! ## Lemmas about `sortDescendingByRisk` -/

theorem insertDesc_perm (x : Item) : ∀ (l : List Item),
    (insertDesc x l).Perm (x :: l)
  | [] => List.Perm.refl _
  | y :: t => by
      by_cases h : scoreD y ≤ scoreD x
      · rw [insertDesc, if_pos h]
      · rw [insertDesc, if_neg h]
        exact ((insertDesc_perm x t).cons y).trans (List.Perm.swap x y t)

theorem sortDescendingByRisk_perm : ∀ (l : List Item),
    (sortDescendingByRisk l).Perm l
  | [] => List.Perm.refl _
  | a :: t => by
      rw [sortDescendingByRisk, List.foldr_cons]
      exact (insertDesc_perm a _).trans
        ((sortDescendingByRisk_perm t).cons a)

theorem insertDesc_pairwise (x : Item) : ∀ (l : List Item),
    l.Pairwise (fun a b => scoreD b ≤ scoreD a) →
    (insertDesc x l).Pairwise (fun a b => scoreD b ≤ scoreD a)
  | [], _ => by simp [insertDesc]
  | y :: t, h => by
      by_cases hle : scoreD y ≤ scoreD x
      · rw [insertDesc, if_pos hle]
        refine List.Pairwise.cons ?_ h
        intro b hb
        rcases List.mem_cons.1 hb with rfl | hb'
        · exact hle
        · exact le_trans ((List.pairwise_cons.1 h).1 b hb') hle
      · rw [insertDesc, if_neg hle]
        refine List.Pairwise.cons ?_
          (insertDesc_pairwise x t (List.pairwise_cons.1 h).2)
        intro b hb
        have hb2 := (insertDesc_perm x t).mem_iff.1 hb
        rcases List.mem_cons.1 hb2 with rfl | hb'
        · exact le_of_lt (not_le.1 hle)
        · exact (List.pairwise_cons.1 h).1 b hb'

theorem sortDescendingByRisk_pairwise : ∀ (l : List Item),
    (sortDescendingByRisk l).Pairwise (fun a b => scoreD b ≤ scoreD a)
  | [] => by simp [sortDescendingByRisk]
  | a :: t => by
      rw [sortDescendingByRisk, List.foldr_cons]
      exact insertDesc_pairwise a _ (sortDescendingByRisk_pairwise t)

theorem insertDesc_filter (x : Item) (s : ℚ) : ∀ (l : List Item),
    (insertDesc x l).filter (fun r => scoreD r = s)
      = if scoreD x = s then x :: l.filter (fun r => scoreD r = s)
        else l.filter (fun r => scoreD r = s)
  | [] => by
      by_cases hx : scoreD x = s
      · rw [if_pos hx]
        simp [insertDesc, hx]
      · rw [if_neg hx]
        simp [insertDesc, hx]
  | y :: t => by
      by_cases hle : scoreD y ≤ scoreD x
      · rw [insertDesc, if_pos hle]
        by_cases hx : scoreD x = s
        · rw [if_pos hx, List.filter_cons_of_pos (by simpa using hx)]
        · rw [if_neg hx, List.filter_cons_of_neg (by simpa using hx)]
      · rw [insertDesc, if_neg hle]
        have hy : scoreD x < scoreD y := not_le.1 hle
        by_cases hx : scoreD x = s
        · have hyne : ¬(scoreD y = s) := by
            rw [← hx]
            exact ne_of_gt hy
          rw [if_pos hx, List.filter_cons_of_neg (by simpa using hyne),
            List.filter_cons_of_neg (by simpa using hyne),
            insertDesc_filter x s t, if_pos hx]
        · rw [if_neg hx]
          by_cases hys : scoreD y = s
          · rw [List.filter_cons_of_pos (by simpa using hys),
              List.filter_cons_of_pos (by simpa using hys),
              insertDesc_filter x s t, if_neg hx]
          · rw [List.filter_cons_of_neg (by simpa using hys),
              List.filter_cons_of_neg (by simpa using hys),
              insertDesc_filter x s t, if_neg hx]

theorem sortDescendingByRisk_filter (s : ℚ) : ∀ (l : List Item),
    (sortDescendingByRisk l).filter (fun r => scoreD r = s)
      = l.filter (fun r => scoreD r = s)
  | [] => rfl
  | a :: t => by
      rw [sortDescendingByRisk, List.foldr_cons, insertDesc_filter a s]
      by_cases ha : scoreD a = s
      · rw [if_pos ha, List.filter_cons_of_pos (by simpa using ha)]
        rw [show List.foldr insertDesc [] t = sortDescendingByRisk t from rfl,
          sortDescendingByRisk_filter s t]
      · rw [if_neg ha, List.filter_cons_of_neg (by simpa using ha)]
        rw [show List.foldr insertDesc [] t = sortDescendingByRisk t from rfl,
          sortDescendingByRisk_filter s t]

/-! ## Evaluation lemmas for the double-precision popup percentage -/

theorem dblRound_pos_eval (q : ℚ) (hq : 0 < q) :
    dblRound q = (roundHalfEven (q / 2 ^ (Int.log 2 q - 52)) : ℚ)
      * 2 ^ (Int.log 2 q - 52) := by
  unfold dblRound
  rw [if_neg (ne_of_gt hq), abs_of_pos hq, if_neg (not_lt.2 hq.le)]
  simp only [one_mul]

theorem roundHalfEven_of_lt {x : ℚ} {f : ℤ} (hf : ⌊x⌋ = f)
    (hr : x - f < 1 / 2) : roundHalfEven x = f := by
  unfold roundHalfEven
  rw [hf, if_pos hr]

/-- The binary64 value denoted by the JSON literal `0.145`
(`5224175567749775 × 2⁻⁵⁵`, slightly below 145/1000). -/
theorem dblRound_json145 :
    dblRound ((145:ℚ)/1000) = 5224175567749775 / 36028797018963968 := by
  have hlog1 : Int.log 2 ((145:ℚ)/1000) = -3 := by
    rw [Int.log_of_right_le_one 2 (by norm_num)]
    have hceil : ⌈((145:ℚ)/1000)⁻¹⌉₊ = 7 := by
      rw [Nat.ceil_eq_iff (by norm_num)]
      constructor <;> norm_num
    rw [hceil]
    have hclog : Nat.clog 2 7 = 3 :=
      le_antisymm ((Nat.le_pow_iff_clog_le one_lt_two).1 (by norm_num))
        ((Nat.pow_lt_iff_lt_clog one_lt_two).1 (by norm_num))
    rw [hclog]
    norm_num
  rw [dblRound_pos_eval _ (by norm_num), hlog1]
  have he : (-3 : ℤ) - 52 = -55 := by norm_num
  rw [he]
  have hdiv : ((145:ℚ)/1000) / (2:ℚ) ^ (-55 : ℤ) = 130604389193744384/25 := by
    rw [zpow_neg, div_eq_mul_inv, inv_inv]
    norm_num
  rw [hdiv]
  have hfl : (⌊(130604389193744384:ℚ)/25⌋ : ℤ) = 5224175567749775 := by
    rw [Int.floor_eq_iff]
    constructor <;> norm_num
  rw [roundHalfEven_of_lt hfl (by norm_num)]
  rw [zpow_neg]
  norm_num

theorem double145_times_100 :
    (5224175567749775:ℚ) / 36028797018963968 * 100
      = 130604389193744375/9007199254740992 := by norm_num

/-- The double product `0.145 * 100` in JS: `14.499999999999998`
(`8162774324609023 × 2⁻⁴⁹`). -/
theorem dblRound_json145_times_100 :
    dblRound ((130604389193744375:ℚ)/9007199254740992)
      = 8162774324609023/562949953421312 := by
  have hlog2 : Int.log 2 ((130604389193744375:ℚ)/9007199254740992) = 3 := by
    rw [Int.log_of_one_le_right 2 (by norm_num)]
    have hfl : ⌊(130604389193744375:ℚ)/9007199254740992⌋₊ = 14 := by
      rw [Nat.floor_eq_iff (by norm_num)]
      constructor <;> norm_num
    rw [hfl]
    have hl14 : Nat.log 2 14 = 3 :=
      Nat.log_eq_of_pow_le_of_lt_pow (by norm_num) (by norm_num)
    rw [hl14]
    norm_num
  rw [dblRound_pos_eval _ (by norm_num), hlog2]
  have he : (3 : ℤ) - 52 = -49 := by norm_num
  rw [he]
  have hdiv : ((130604389193744375:ℚ)/9007199254740992) / (2:ℚ) ^ (-49 : ℤ)
      = 130604389193744375/16 := by
    rw [zpow_neg, div_eq_mul_inv, inv_inv]
    norm_num
  rw [hdiv]
  have hfl : (⌊(130604389193744375:ℚ)/16⌋ : ℤ) = 8162774324609023 := by
    rw [Int.floor_eq_iff]
    constructor <;> norm_num
  rw [roundHalfEven_of_lt hfl (by norm_num)]
  rw [zpow_neg]
  norm_num

theorem jsToFixed0_code_value :
    jsToFixed0 ((8162774324609023:ℚ)/562949953421312) = 14 := by
  unfold jsToFixed0
  rw [Int.floor_eq_iff]
  constructor <;> norm_num

theorem jsToFixed0_exact145 : jsToFixed0 ((145/1000 : ℚ) * 100) = 15 := by
  unfold jsToFixed0
  rw [Int.floor_eq_iff]
  constructor <;> norm_num

/-! ## Claim theorems -/

/-- C1: on inputs whose records all carry a score, `getUniqueConsumers`
produces one record per consumer key, keeping the record with the
strictly greatest `aggregate_risk_score` and, among ties, the first
encountered in input order; the result is identical across repeated
calls on the same input (the function is pure). -/
theorem getUniqueConsumers_rank_correct
    (records : List Item) (anoms : Option (List Item))
    (hsc : ∀ r ∈ records, (r.aggregate_risk_score).isSome) :
    RankSpec records anoms := by
  have hout : getUniqueConsumers (some ⟨some records, anoms⟩)
      = (buildMap records).map Prod.snd := rfl
  refine ⟨rfl, ?_, ?_, ?_⟩
  · rw [hout, map_snd_key_eq _ (consistent_buildMap records)]
    exact nodup_keysOf_buildMap records
  · intro k
    constructor
    · rintro ⟨r, hr, hk⟩
      rw [hout] at hr
      have he := out_mem_entry records r hr
      have hm := entryFor_some_mem records (itemKey r) r he
      exact ⟨r, hm.1, hk⟩
    · intro hex
      rcases entry_some_of_exists records k hex with ⟨v, hv, hvm⟩
      have hvk := entryFor_some_mem records k v hv
      exact ⟨v, by rw [hout]; exact hvm, hvk.2⟩
  · intro r hr
    rw [hout] at hr
    have he := out_mem_entry records r hr
    rw [entryFor_eq] at he
    cases hg : groupFor records (itemKey r) with
    | nil =>
        rw [hg] at he
        exact absurd he (by simp)
    | cons x t =>
        rw [hg] at he
        have hksub : ∀ a ∈ x :: t, (a.aggregate_risk_score).isSome := by
          intro a ha
          rw [← hg] at ha
          exact hsc a (List.mem_filter.1 ha).1
        obtain ⟨pre, post, heq, hpre, hpost⟩ := pickBest_split t x hksub
        have hpick : pickBestFrom x t = r := by
          cases he
          rfl
        rw [← hpick]
        exact ⟨pre, post, heq, hpre, hpost⟩

/-- Witness for C1 at the spec's duplicated-consumer example
(scores 0.3 and 0.7 under one id). -/
theorem getUniqueConsumers_rank_correct_witness :
    (∀ r ∈ [itemX03, itemX07], (r.aggregate_risk_score).isSome)
    ∧ RankSpec [itemX03, itemX07] none := by
  have h : ∀ r ∈ [itemX03, itemX07], (r.aggregate_risk_score).isSome := by
    intro r hr
    rcases List.mem_cons.1 hr with rfl | hr'
    · rfl
    · rcases List.mem_cons.1 hr' with rfl | hr''
      · rfl
      · exact absurd hr'' (by simp)
  exact ⟨h, getUniqueConsumers_rank_correct [itemX03, itemX07] none h⟩

/-- C2 counterexample: with `results` absent and `anomalies` non-empty,
the ranked view is empty — there is no fallback to `anomalies`. -/
theorem getUniqueConsumers_no_anomaly_fallback :
    getUniqueConsumers (some dataNoResults) = []
    ∧ dataNoResults.results = none
    ∧ dataNoResults.anomalies = some [itemAnom] :=
  ⟨rfl, rfl, rfl⟩

/-- C2 amended: the ranked consumer view is drawn from `results` alone;
when `results` is absent the view is empty regardless of `anomalies`,
and the view never depends on `anomalies`. -/
theorem getUniqueConsumers_results_only :
    (∀ anoms : Option (List Item), getUniqueConsumers (some ⟨none, anoms⟩) = [])
    ∧ (∀ (res : Option (List Item)) (a₁ a₂ : Option (List Item)),
        getUniqueConsumers (some ⟨res, a₁⟩) = getUniqueConsumers (some ⟨res, a₂⟩)) := by
  refine ⟨fun _ => rfl, fun res a₁ a₂ => ?_⟩
  cases res <;> rfl

/-- C4 counterexample: a record with no `consumer_id` is not dropped —
it is returned (stored under the coerced key "undefined"). -/
theorem missing_id_not_dropped :
    getUniqueConsumers (some ⟨some [itemNoId], none⟩) = [itemNoId]
    ∧ itemNoId.consumer_id = none :=
  ⟨rfl, rfl⟩

/-- C4 amended: records lacking `consumer_id` are kept, all grouped
under the single dictionary key "undefined" (so at most one such record
survives); no count of dropped elements exists in the code. -/
theorem missing_id_kept (records : List Item) (anoms : Option (List Item))
    (h : ∃ r ∈ records, r.consumer_id = none) :
    (∃ r' ∈ getUniqueConsumers (some ⟨some records, anoms⟩),
        itemKey r' = "undefined")
    ∧ ((getUniqueConsumers (some ⟨some records, anoms⟩)).filter
        (fun r => itemKey r = "undefined")).length ≤ 1 := by
  have hout : getUniqueConsumers (some ⟨some records, anoms⟩)
      = (buildMap records).map Prod.snd := rfl
  constructor
  · rcases h with ⟨r, hr, hnone⟩
    have hex : ∃ r ∈ records, itemKey r = "undefined" :=
      ⟨r, hr, by simp [itemKey, jsStr, hnone]⟩
    rcases entry_some_of_exists records "undefined" hex with ⟨v, hv, hvm⟩
    have hvk := entryFor_some_mem records "undefined" v hv
    exact ⟨v, by rw [hout]; exact hvm, hvk.2⟩
  · rw [hout]
    apply length_filter_le_one
    rw [map_snd_key_eq _ (consistent_buildMap records)]
    exact nodup_keysOf_buildMap records

/-- Witness for the amended C4 at a concrete id-less record. -/
theorem missing_id_kept_witness :
    (∃ r ∈ [itemNoId, itemAnom], r.consumer_id = none)
    ∧ ((∃ r' ∈ getUniqueConsumers (some ⟨some [itemNoId, itemAnom], none⟩),
          itemKey r' = "undefined")
       ∧ ((getUniqueConsumers (some ⟨some [itemNoId, itemAnom], none⟩)).filter
          (fun r => itemKey r = "undefined")).length ≤ 1) := by
  have h : ∃ r ∈ [itemNoId, itemAnom], r.consumer_id = none :=
    ⟨itemNoId, List.mem_cons_self _ _, rfl⟩
  exact ⟨h, missing_id_kept [itemNoId, itemAnom] none h⟩

/-- C5: `sortDescendingByRisk` is a permutation of its input, is ordered
by `aggregate_risk_score || 0` descending, is stable (the sub-sequence
at any fixed score is preserved verbatim), and maps the spec's example
`[A:0.1, B:0.9, C:0.5]` to `[B, C, A]`. -/
theorem sortDescendingByRisk_spec :
    (∀ l : List Item, (sortDescendingByRisk l).Perm l)
    ∧ (∀ l : List Item,
        (sortDescendingByRisk l).Pairwise (fun a b => scoreD b ≤ scoreD a))
    ∧ (∀ (l : List Item) (s : ℚ),
        (sortDescendingByRisk l).filter (fun r => scoreD r = s)
          = l.filter (fun r => scoreD r = s))
    ∧ sortDescendingByRisk [itemA, itemB, itemC] = [itemB, itemC, itemA] := by
  refine ⟨sortDescendingByRisk_perm, sortDescendingByRisk_pairwise,
    fun l s => sortDescendingByRisk_filter s l, ?_⟩
  norm_num [sortDescendingByRisk, insertDesc, scoreD, itemA, itemB, itemC]

/-- C7: the "Normal Entries" table renders only when the toggle is on,
and its rows are exactly the `results` entries whose `risk_class` is
the string "normal", ordered by score descending (stably). -/
theorem normal_table_spec :
    (∀ results : Option (List Item), showNormalSection false results = false)
    ∧ (∀ results : Option (List Item),
        (sortedNormalItems results).Perm (normalItems results))
    ∧ (∀ results : Option (List Item),
        (sortedNormalItems results).Pairwise (fun a b => scoreD b ≤ scoreD a))
    ∧ (∀ (results : Option (List Item)) (r : Item),
        r ∈ normalItems results
          ↔ r ∈ results.getD [] ∧ r.risk_class = some "normal") := by
  refine ⟨?_, ?_, ?_, ?_⟩
  · intro results
    simp [showNormalSection]
  · intro results
    exact sortDescendingByRisk_perm _
  · intro results
    exact sortDescendingByRisk_pairwise _
  · intro results r
    constructor
    · intro h
      have := List.mem_filter.1 h
      exact ⟨this.1, by simpa using this.2⟩
    · intro h
      exact List.mem_filter.2 ⟨h.1, by simpa using h.2⟩

/-- C9: `initializeMap` is idempotent once a surface exists — a second
invocation with the surface handle already set leaves the whole state
(surface handle included) unchanged, for any host-ref/constructor
outcome and any data. -/
theorem initializeMap_idempotent (hasRef constructOk : Bool)
    (data : Option AnalysisData) (s : MapState) (n : ℕ)
    (h : s.googleMap = some n) :
    initializeMap hasRef constructOk data s = s := by
  cases hasRef <;> simp [initializeMap, h]

/-- Witness for C9 at a state whose surface is already constructed. -/
theorem initializeMap_idempotent_witness :
    mapStateReady.googleMap = some 0
    ∧ initializeMap true true none mapStateReady = mapStateReady :=
  ⟨rfl, initializeMap_idempotent true true none mapStateReady 0 rfl⟩

/-- C10: in the dedup pass, JS `>` against an absent score is false both
ways, so for any id-group the kept record is unaffected by later records
lacking a score, and a group whose first record lacks a score keeps that
first record outright, whatever numeric scores follow. -/
theorem dedup_absent_score_first_wins (records : List Item) (k : String)
    (x : Item) (t : List Item) (hg : groupFor records k = x :: t) :
    entryFor records k = some (pickBestFrom x t)
    ∧ (x.aggregate_risk_score = none → entryFor records k = some x)
    ∧ entryFor records k
        = some (pickBestFrom x (t.filter (fun r => (r.aggregate_risk_score).isSome)))
    ∧ pickBestFrom x t ∈ getUniqueConsumers (some ⟨some records, none⟩) := by
  have h1 : entryFor records k = some (pickBestFrom x t) := by
    rw [entryFor_eq, hg]
  refine ⟨h1, ?_, ?_, ?_⟩
  · intro hn
    rw [h1, pickBestFrom_none t x hn]
  · rw [h1, ← pickBestFrom_filter_isSome]
  · exact List.mem_map_of_mem Prod.snd (mem_of_lookupKey_eq_some _ _ _ h1)

/-- Witness for C10: the id-group "S1" starts with a score-less record
followed by a 0.5-scored one; the score-less first record is kept. -/
theorem dedup_absent_score_first_wins_witness :
    groupFor [itemNoScore, itemS05] "S1" = itemNoScore :: [itemS05]
    ∧ (entryFor [itemNoScore, itemS05] "S1"
        = some (pickBestFrom itemNoScore [itemS05])
      ∧ (itemNoScore.aggregate_risk_score = none →
          entryFor [itemNoScore, itemS05] "S1" = some itemNoScore)
      ∧ entryFor [itemNoScore, itemS05] "S1"
          = some (pickBestFrom itemNoScore
              ([itemS05].filter (fun r => (r.aggregate_risk_score).isSome)))
      ∧ pickBestFrom itemNoScore [itemS05]
          ∈ getUniqueConsumers (some ⟨some [itemNoScore, itemS05], none⟩)) :=
  ⟨rfl, dedup_absent_score_first_wins [itemNoScore, itemS05] "S1"
    itemNoScore [itemS05] rfl⟩

/-- C3: the marker renderer never produces a marker for a record whose
lowered risk class is outside theft/critical/mild (in particular for
"normal" and for unrecognized strings); with coordinates that do not
parse to NaN, "mild" produces a yellow marker and "theft"/"critical"
produce red markers. -/
theorem markerOf_risk_colors (item : Item) :
    ((lowerStr ((item.risk_class).getD "") ≠ "theft"
      ∧ lowerStr ((item.risk_class).getD "") ≠ "critical"
      ∧ lowerStr ((item.risk_class).getD "") ≠ "mild") → markerOf item = none)
    ∧ (item.risk_class = some "normal" → markerOf item = none)
    ∧ ((parseFloatJs item.latitude).isNaN = false →
        (parseFloatJs item.longitude).isNaN = false →
        ((item.risk_class = some "mild" →
            ∃ m, markerOf item = some m ∧ m.color = "#eab308")
         ∧ ((item.risk_class = some "theft" ∨ item.risk_class = some "critical") →
            ∃ m, markerOf item = some m ∧ m.color = "#ef4444"))) := by
  have hskip : (lowerStr ((item.risk_class).getD "") ≠ "theft"
      ∧ lowerStr ((item.risk_class).getD "") ≠ "critical"
      ∧ lowerStr ((item.risk_class).getD "") ≠ "mild") → markerOf item = none := by
    intro h
    simp only [markerOf]
    by_cases hn : ((parseFloatJs item.latitude).isNaN
        || (parseFloatJs item.longitude).isNaN) = true
    · rw [if_pos hn]
    · rw [if_neg hn, if_pos h]
  refine ⟨hskip, ?_, ?_⟩
  · intro h
    apply hskip
    rw [h]
    refine ⟨?_, ?_, ?_⟩ <;> decide
  · intro hla hlo
    constructor
    · intro h
      simp only [markerOf, hla, hlo, h, Option.getD_some]
      have hl : lowerStr "mild" = "mild" := by decide
      simp only [hl]
      norm_num
    · rintro (h | h) <;>
        · simp only [markerOf, hla, hlo, h, Option.getD_some]
          first
          | (have hl : lowerStr "theft" = "theft" := by decide
             have h1 : ("theft" : String) ≠ "mild" := by decide
             simp only [hl, h1]
             norm_num)
          | (have hl : lowerStr "critical" = "critical" := by decide
             have h1 : ("critical" : String) ≠ "mild" := by decide
             simp only [hl, h1]
             norm_num)

/-- Witness for C3: concrete normal / unrecognized / mild / theft /
critical records. -/
theorem markerOf_risk_colors_witness :
    itemNormal.risk_class = some "normal"
    ∧ markerOf itemNormal = none
    ∧ markerOf itemWeird = none
    ∧ (∃ m, markerOf itemMild = some m ∧ m.color = "#eab308")
    ∧ (∃ m, markerOf itemTheft = some m ∧ m.color = "#ef4444")
    ∧ (∃ m, markerOf itemCrit = some m ∧ m.color = "#ef4444") :=
  ⟨rfl,
   (markerOf_risk_colors itemNormal).2.1 rfl,
   (markerOf_risk_colors itemWeird).1 (by decide),
   ((markerOf_risk_colors itemMild).2.2 rfl rfl).1 rfl,
   ((markerOf_risk_colors itemTheft).2.2 rfl rfl).2 (Or.inl rfl),
   ((markerOf_risk_colors itemCrit).2.2 rfl rfl).2 (Or.inr rfl)⟩

/-- C6 amended: a record whose latitude or longitude parses to `NaN`
(for example the string "N/A") is skipped — no marker, no exception (the
embedding is total) — and the rest of the render pass is unaffected.
(Values parsing to ±Infinity are not NaN and are not skipped; see the
counterexample.) -/
theorem markerOf_skip_nan (item : Item)
    (h : (parseFloatJs item.latitude).isNaN = true
       ∨ (parseFloatJs item.longitude).isNaN = true) :
    markerOf item = none
    ∧ ∀ xs ys : List Item,
        renderMarkers (xs ++ item :: ys) = renderMarkers xs ++ renderMarkers ys := by
  have hm : markerOf item = none := by
    simp only [markerOf]
    rcases h with h | h <;> simp [h]
  refine ⟨hm, fun xs ys => ?_⟩
  simp [renderMarkers, List.filterMap_append, List.filterMap_cons, hm]

/-- Witness for C6 at the record whose latitude is "N/A". -/
theorem markerOf_skip_nan_witness :
    (parseFloatJs itemNA.latitude).isNaN = true
    ∧ (markerOf itemNA = none
       ∧ ∀ xs ys : List Item,
          renderMarkers (xs ++ itemNA :: ys)
            = renderMarkers xs ++ renderMarkers ys) :=
  ⟨by decide, markerOf_skip_nan itemNA (Or.inl (by decide))⟩

/-- C6 counterexample: latitude "Infinity" does not parse as a finite
number, yet the record is not skipped — `isNaN(Infinity)` is false, so a
marker is produced at an infinite coordinate. -/
theorem markerOf_infinity_not_skipped :
    parseFloatJs itemInf.latitude = JNum.inf
    ∧ (markerOf itemInf).isSome = true :=
  ⟨by decide, by decide⟩

/-- C8 amended: every produced marker's popup carries the record's
consumer id (stringified) and the integer percentage
`((aggregate_risk_score || 0) * 100).toFixed(0)`, i.e. the round-half-up
of the IEEE-754 double product of the score with 100. -/
theorem marker_popup_format (item : Item) (m : MarkerEntry)
    (h : markerOf item = some m) :
    m.popupId = jsStr item.consumer_id
    ∧ m.popupPercent = jsToFixed0 (dblRound (scoreD item * 100)) := by
  simp only [markerOf] at h
  by_cases hn : ((parseFloatJs item.latitude).isNaN
      || (parseFloatJs item.longitude).isNaN) = true
  · rw [if_pos hn] at h
    exact absurd h (by simp)
  · rw [if_neg hn] at h
    by_cases hr : (lowerStr ((item.risk_class).getD "") ≠ "theft"
        ∧ lowerStr ((item.risk_class).getD "") ≠ "critical"
        ∧ lowerStr ((item.risk_class).getD "") ≠ "mild")
    · rw [if_pos hr] at h
      exact absurd h (by simp)
    · rw [if_neg hr] at h
      cases h
      exact ⟨rfl, rfl⟩

/-- Witness for the amended C8 at the theft record with score 0.75:
the popup shows "T9" and 75%. -/
theorem marker_popup_format_witness :
    (∃ m, markerOf itemTheft = some m
      ∧ (m.popupId = jsStr itemTheft.consumer_id
        ∧ m.popupPercent = jsToFixed0 (dblRound (scoreD itemTheft * 100)))) :=
  ⟨_, rfl, marker_popup_format itemTheft _ rfl⟩

/-- C8 counterexample: for the double denoted by the JSON literal
`0.145`, the popup percentage computed by the code is 14, while
round-half-up of the exact product `0.145 × 100` is 15 — the spec's
example "0.145 displays as 15%" does not hold on the code. -/
theorem marker_popup_cx :
    item145.aggregate_risk_score = some (dblRound (145/1000))
    ∧ (∃ m, markerOf item145 = some m
        ∧ m.popupPercent = 14 ∧ m.popupId = "P1")
    ∧ jsToFixed0 ((145/1000 : ℚ) * 100) = 15
    ∧ (14 : ℤ) ≠ 15 := by
  refine ⟨rfl, ⟨_, rfl, ?_, rfl⟩, jsToFixed0_exact145, by decide⟩
  show jsToFixed0 (dblRound (scoreD item145 * 100)) = 14
  have hs : scoreD item145 = dblRound ((145:ℚ)/1000) := rfl
  rw [hs, dblRound_json145, double145_times_100, dblRound_json145_times_100,
    jsToFixed0_code_value]

end Shakti
